import Mathlib

/-!
Shallow embedding of the module dependency resolution and content-addressed
module graph engine of the `buf` repository, together with proofs of the
claims about it.

Conventions used throughout:

* Go strings that the engine orders or compares lexicographically (module
  full names, opaque IDs, commit IDs, digest byte values) are modelled as
  `List Nat` (a Go string is a byte slice; lexicographic order on byte lists
  is exactly Go string comparison).  Strings that are only carried along or
  compared for equality (error messages, file paths in some components) stay
  Lean `String`s.
* Go `(T, error)` returns become `Except Err T`; a Go runtime panic
  (out-of-range slice index, nil dereference) is modelled by the dedicated
  error constructors `Err.panicIndexOutOfRange` / `Err.nilDereference`, so
  that the functions stay total while aborts remain observable.
* Go map iteration order is unspecified; wherever the source iterates a map
  we fix first-occurrence order of the keys.  Callers in the source either
  sort the outcome afterwards or do not depend on the order.
* Provider interfaces (`CommitProvider`, `ModuleDataProvider`) become
  function parameters.  Functions that may call a provider additionally
  return the list of argument lists of the calls they made, so that claims
  about which provider calls happen ("queries once", "never invoked") are
  expressible.
-/

/-- Go strings, seen as byte lists; ordered lexicographically like Go strings. -/
abbrev Str := List Nat

/-- Content digest: an algorithm tag plus a fixed-length byte value, the byte
value encoded as a natural number (big-endian; digests of one algorithm have
one fixed length, so the encoding is order- and equality-faithful). -/
structure Digest where
  dtype : String
  value : Nat
deriving DecidableEq, Repr

/-- Stable human-readable digest encoding of shape `algorithm:value`,
modelled from the spec (section 6, digest text encoding), used by error
message rendering (`%v` of a digest). -/
def digestString (d : Digest) : String :=
  d.dtype ++ ":" ++ toString d.value

/-- Errors of the engine.  Each constructor corresponds to one error
construction site in the source; constructors carry the data the source
interpolates into the message. -/
inductive Err where
  /-- syserror.New / syserror.Newf: invariant violations. -/
  | syserror (msg : String)
  /-- fs.PathError wrapping fs.ErrNotExist: a not-found condition. -/
  | errNotExist (path : String)
  /-- errors.New / fmt.Errorf: ordinary error with a message. -/
  | errorMsg (msg : String)
  /-- fmt.Errorf with %w: wraps an inner error with a message prefix. -/
  | wrap (msg : String) (inner : Err)
  /-- lazyModule.getModule: fmt.Errorf("expected digest %v, got %v", ...). -/
  | digestMismatch (expected actual : Digest)
  /-- cache.getModuleForFilePathUncached: fmt.Errorf("no Module contains file %q", ...). -/
  | noModuleContainsFile (filePath : String)
  /-- cache.getModuleForFilePathUncached: fmt.Errorf("multiple Modules contained file %q: %v", ...). -/
  | multipleModulesContainedFile (filePath : String) (opaqueIDs : List Str)
  /-- Go runtime panic: index out of range [i] with length n. -/
  | panicIndexOutOfRange (i n : Nat)
  /-- Go runtime panic: nil pointer dereference. -/
  | nilDereference
deriving DecidableEq, Repr

deriving instance DecidableEq for Except

/-- Rendered message of an error; only the verification-failure message shape
is consulted by the claims (source: fmt.Errorf("expected digest %v, got %v",
expectedDigest, actualDigest)). -/
def Err.message : Err → String
  | .digestMismatch expected actual =>
      "expected digest " ++ digestString expected ++ ", got " ++ digestString actual
  | _ => ""

/-!
Grouping helpers.  `slicesext.ToValuesMap` (not under src/) builds a Go map
from key to the slice of values with that key, each group in input order.
We model the map, under the fixed first-occurrence key order, as an
association list, built by structural recursion: the group of the head
element comes first (head prepended to the same-key elements of the tail's
grouping), followed by the tail's remaining groups.
-/

/-- Values of the group with key `k`, or `[]` when there is no such group. -/
def groupLookup [DecidableEq κ] (k : κ) (groups : List (κ × List α)) : List α :=
  match groups.find? (fun g => decide (g.1 = k)) with
  | some g => g.2
  | none => []

/-- Modelled from the spec: `slicesext.ToValuesMap` (not under src/) — groups
the entries by key (spec section 4.4: group by OpaqueID, deduplicate by
commit ID), keys in first-occurrence order, each group in input order. -/
def groupByFirst [DecidableEq κ] (key : α → κ) : List α → List (κ × List α)
  | [] => []
  | a :: rest =>
    (key a, a :: groupLookup (key a) (groupByFirst key rest)) ::
      (groupByFirst key rest).filter (fun g => decide (g.1 ≠ key a))

/-- First element of each group, in first-occurrence key order: mirrors the
source pattern of iterating a `ToValuesMap` result and keeping `group[0]`. -/
def uniqueByKeyFirst [DecidableEq κ] (key : α → κ) (l : List α) : List α :=
  (groupByFirst key l).filterMap (fun g => g.2.head?)

theorem groupLookup_sub [DecidableEq κ] (k : κ) (groups : List (κ × List α))
    (v : α) (hv : v ∈ groupLookup k groups) :
    ∃ g ∈ groups, g.1 = k ∧ v ∈ g.2 := by
  unfold groupLookup at hv
  split at hv
  case _ g hg =>
    refine ⟨g, List.mem_of_find?_eq_some hg, ?_, hv⟩
    have := List.find?_some hg
    simpa using this
  case _ => simp at hv

theorem mem_of_mem_groupByFirst [DecidableEq κ] (key : α → κ) :
    ∀ (l : List α) (p : κ × List α), p ∈ groupByFirst key l →
      ∀ v ∈ p.2, v ∈ l ∧ key v = p.1
  | [], p, hp => by simp [groupByFirst] at hp
  | a :: rest, p, hp => by
    rw [groupByFirst] at hp
    rcases List.mem_cons.mp hp with h | h
    · subst h
      intro v hv
      rcases List.mem_cons.mp hv with h | h
      · subst h; exact ⟨List.mem_cons_self _ _, rfl⟩
      · rcases groupLookup_sub _ _ _ h with ⟨g, hg, hk, hvg⟩
        rcases mem_of_mem_groupByFirst key rest g hg v hvg with ⟨hmem, hkey⟩
        exact ⟨List.mem_cons_of_mem _ hmem, by rw [hkey, hk]⟩
    · intro v hv
      have hmem := List.mem_of_mem_filter h
      rcases mem_of_mem_groupByFirst key rest p hmem v hv with ⟨h1, h2⟩
      exact ⟨List.mem_cons_of_mem _ h1, h2⟩

theorem groupByFirst_nonempty [DecidableEq κ] (key : α → κ) :
    ∀ (l : List α) (p : κ × List α), p ∈ groupByFirst key l → p.2 ≠ []
  | [], p, hp => by simp [groupByFirst] at hp
  | a :: rest, p, hp => by
    rw [groupByFirst] at hp
    rcases List.mem_cons.mp hp with h | h
    · subst h; simp
    · exact groupByFirst_nonempty key rest p (List.mem_of_mem_filter h)

theorem groupByFirst_keys_nodup [DecidableEq κ] (key : α → κ) :
    ∀ (l : List α), ((groupByFirst key l).map Prod.fst).Nodup
  | [] => by simp [groupByFirst]
  | a :: rest => by
    rw [groupByFirst]
    simp only [List.map_cons, List.nodup_cons]
    constructor
    · intro hmem
      rcases List.mem_map.mp hmem with ⟨p, hp, hfst⟩
      have := List.of_mem_filter hp
      simp only [decide_eq_true_eq] at this
      exact this hfst
    · exact ((groupByFirst_keys_nodup key rest).sublist
        (List.Sublist.map Prod.fst (List.filter_sublist _)))

theorem groupByFirst_keys_mem [DecidableEq κ] (key : α → κ) :
    ∀ (l : List α) (k : κ),
      k ∈ (groupByFirst key l).map Prod.fst ↔ k ∈ l.map key
  | [], k => by simp [groupByFirst]
  | a :: rest, k => by
    rw [groupByFirst]
    simp only [List.map_cons, List.mem_cons]
    constructor
    · rintro (h | h)
      · exact Or.inl h
      · rcases List.mem_map.mp h with ⟨p, hp, hfst⟩
        have hmem := List.mem_of_mem_filter hp
        have : p.1 ∈ (groupByFirst key rest).map Prod.fst := List.mem_map_of_mem _ hmem
        rw [hfst] at this
        exact Or.inr ((groupByFirst_keys_mem key rest k).mp this)
    · rintro (h | h)
      · exact Or.inl h
      · have hmem : k ∈ (groupByFirst key rest).map Prod.fst :=
          (groupByFirst_keys_mem key rest k).mpr h
        rcases List.mem_map.mp hmem with ⟨p, hp, hfst⟩
        by_cases hka : k = key a
        · exact Or.inl hka
        · refine Or.inr (List.mem_map.mpr ⟨p, List.mem_filter.mpr ⟨hp, ?_⟩, hfst⟩)
          simp only [decide_eq_true_eq]
          rw [hfst]; exact hka

theorem uniqueByKeyFirst_sub [DecidableEq κ] (key : α → κ) (l : List α) :
    ∀ x ∈ uniqueByKeyFirst key l, x ∈ l := by
  intro x hx
  rcases List.mem_filterMap.mp hx with ⟨g, hg, hhead⟩
  exact (mem_of_mem_groupByFirst key l g hg x (List.mem_of_mem_head? hhead)).1

theorem uniqueByKeyFirst_cons [DecidableEq κ] (key : α → κ) (a : α) (rest : List α) :
    ∃ t, uniqueByKeyFirst key (a :: rest) = a :: t := by
  unfold uniqueByKeyFirst
  rw [groupByFirst]
  simp [List.filterMap_cons]

theorem uniqueByKeyFirst_of_all_eq [DecidableEq κ] (key : α → κ) (a : α) (rest : List α)
    (c : κ) (hall : ∀ y ∈ a :: rest, key y = c) :
    uniqueByKeyFirst key (a :: rest) = [a] := by
  unfold uniqueByKeyFirst
  rw [groupByFirst]
  have hfilter : (groupByFirst key rest).filter (fun g => decide (g.1 ≠ key a)) = [] := by
    rw [List.filter_eq_nil_iff]
    intro g hg
    have hkeys : g.1 ∈ (groupByFirst key rest).map Prod.fst := List.mem_map_of_mem _ hg
    rw [groupByFirst_keys_mem] at hkeys
    rcases List.mem_map.mp hkeys with ⟨y, hy, hky⟩
    have h1 : key y = c := hall y (List.mem_cons_of_mem _ hy)
    have h2 : key a = c := hall a (List.mem_cons_self _ _)
    simp only [decide_eq_true_eq, ne_eq, not_not]
    rw [← hky, h1, h2]
  rw [hfilter]
  simp [List.filterMap_cons]

/-- Modelled from the spec: `stringutil.MapToSortedSlice` / the sorting step
of `slicesext.ToUniqueSorted` (not under src/) — ascending lexicographic
sort; Go has a different sorting algorithm, but on the call sites the keys
are pairwise distinct, so the sorted result is unique. -/
def sortStrs (l : List Str) : List Str :=
  l.insertionSort (· ≤ ·)

/-- Modelled from the spec: `slicesext.ToUniqueSorted` (not under src/) —
sorted copy with duplicates removed. -/
def toUniqueSorted (l : List Str) : List Str :=
  uniqueByKeyFirst id (sortStrs l)

theorem toUniqueSorted_of_all_eq (l : List Str) (c : Str)
    (hne : l ≠ []) (hall : ∀ x ∈ l, x = c) :
    toUniqueSorted l = [c] := by
  unfold toUniqueSorted sortStrs
  have hperm := List.perm_insertionSort (fun a b : Str => a ≤ b) l
  have hsortall : ∀ x ∈ l.insertionSort (· ≤ ·), x = c := fun x hx =>
    hall x (hperm.mem_iff.mp hx)
  have hlen : l.insertionSort (· ≤ ·) ≠ [] := by
    intro h
    apply hne
    have := hperm.length_eq
    rw [h] at this
    exact List.length_eq_zero.mp this.symm
  rcases hs : l.insertionSort (· ≤ ·) with _ | ⟨a, rest⟩
  · exact absurd hs hlen
  · rw [hs] at hsortall
    have := uniqueByKeyFirst_of_all_eq (id : Str → Str) a rest c hsortall
    rw [this]
    rw [hsortall a (List.mem_cons_self _ _)]

/-!
Embedding of `private/bufpkg/bufmodule` module-set builder selection logic
(`commit_provider.go`): `addedModule`, `selectAddedModuleForOpaqueID`,
`selectAddedModuleForOpaqueIDIgnoreTargeting`,
`selectRemoteAddedModuleForOpaqueIDIgnoreTargeting`,
`getUniqueSortedAddedModulesByOpaqueID`, and `addedModule.ToModule`.
-/

namespace Selection

/-- bufmodule.ModuleKey, reduced to the projection the builder consults:
`ModuleFullName().String()` and `CommitID()`. -/
structure ModuleKey where
  moduleFullName : Str
  commitID : Str
deriving DecidableEq, Repr

/-- bufmodule.Commit: a ModuleKey plus its (lazily resolved, fallible)
create time; `CreateTime()` results are modelled as naturals, `t1.After t2`
is `t2 < t1`. -/
structure Commit where
  moduleKey : ModuleKey
  createTime : Except Err Nat
deriving DecidableEq

/-- bufmodule.Module, reduced to the projection the builder consults: its
`OpaqueID()`.  The module value itself stands for its content. -/
structure ModuleR where
  opaqueID : Str
deriving DecidableEq, Repr

/-- bufmodule.ModuleData as returned by a ModuleDataProvider: a ModuleKey
plus deferred content (content itself not consulted by the claims). -/
structure ModuleData where
  moduleKey : ModuleKey
deriving DecidableEq, Repr

/-- CommitProvider.GetCommitsForModuleKeys as a function: commits are
returned in input order, or an error (fs.ErrNotExist for a missing key). -/
abbrev CommitProvider := List ModuleKey → Except Err (List Commit)

/-- ModuleDataProvider.GetModuleDatasForModuleKeys as a function. -/
abbrev ModuleDataProvider := List ModuleKey → Except Err (List ModuleData)

/-- bufmodule.addedModule: tagged by which of localModule/remoteModuleKey is
set, plus the isTarget flag and the remote target path filters. -/
structure AddedModule where
  localModule : Option ModuleR
  remoteModuleKey : Option ModuleKey
  remoteTargetPaths : List Str
  remoteTargetExcludePaths : List Str
  isTarget : Bool
deriving DecidableEq, Repr, Inhabited

/-- newLocalAddedModule. -/
def newLocalAddedModule (localModule : ModuleR) (isTarget : Bool) : AddedModule :=
  { localModule := some localModule, remoteModuleKey := none,
    remoteTargetPaths := [], remoteTargetExcludePaths := [], isTarget }

/-- newRemoteAddedModule. -/
def newRemoteAddedModule (remoteModuleKey : ModuleKey)
    (remoteTargetPaths remoteTargetExcludePaths : List Str) (isTarget : Bool) : AddedModule :=
  { localModule := none, remoteModuleKey := some remoteModuleKey,
    remoteTargetPaths, remoteTargetExcludePaths, isTarget }

/-- addedModule.IsLocal: true iff localModule is non-nil. -/
def AddedModule.IsLocal (a : AddedModule) : Bool :=
  a.localModule.isSome

/-- addedModule.OpaqueID: the remote key's ModuleFullName string when remote,
else the local module's OpaqueID.  (Both fields nil cannot arise from the
constructors; the fallback value is never reached on constructor-built
values.) -/
def AddedModule.opaqueID (a : AddedModule) : Str :=
  match a.remoteModuleKey with
  | some k => k.moduleFullName
  | none =>
    match a.localModule with
    | some m => m.opaqueID
    | none => []

/-- ModuleFullName string of the remote key; callers guard that
remoteModuleKey is non-nil before using this. -/
def AddedModule.remoteFullName (a : AddedModule) : Str :=
  (a.remoteModuleKey.map ModuleKey.moduleFullName).getD []

/-- CommitID of the remote key; callers guard that remoteModuleKey is
non-nil before using this. -/
def AddedModule.remoteCommitID (a : AddedModule) : Str :=
  (a.remoteModuleKey.map ModuleKey.commitID).getD []

/-- Loop of selectRemoteAddedModuleForOpaqueIDIgnoreTargeting over
`commits[1:]` (`for i, commit := range commits[1:]`): keep the addedModule
whose commit has the latest create time seen so far; `i + 1` indexes
`uniqueAddedModules`. -/
def pickLatestLoop (uniqueAddedModules : List AddedModule) (i : Nat)
    (best : AddedModule) (bestTime : Nat) : List Commit → Except Err AddedModule
  | [] => .ok best
  | c :: rest =>
    match c.createTime with
    | .error e => .error e
    | .ok t =>
      if bestTime < t then
        match uniqueAddedModules.get? (i + 1) with
        | some am => pickLatestLoop uniqueAddedModules (i + 1) am t rest
        | none => .error (.panicIndexOutOfRange (i + 1) uniqueAddedModules.length)
      else
        pickLatestLoop uniqueAddedModules (i + 1) best bestTime rest

/-- selectRemoteAddedModuleForOpaqueIDIgnoreTargeting.  The second component
of the result records the argument of each GetCommitsForModuleKeys call made
(the source has exactly one call site). -/
def selectRemoteAddedModuleForOpaqueIDIgnoreTargeting (commitProvider : CommitProvider)
    (addedModules : List AddedModule) : Except Err (AddedModule × List (List ModuleKey)) :=
  match addedModules with
  | [] => .error (.syserror "expected at least one remote addedModule in selectRemoteAddedModuleForOpaqueIDIgnoreTargeting")
  | a0 :: rest =>
    if ¬ (a0 :: rest).all (fun a => a.remoteModuleKey.isSome) then
      .error (.syserror "got nil remoteModuleKey in selectRemoteAddedModuleForOpaqueIDIgnoreTargeting")
    else if rest = [] then
      .ok (a0, [])
    else if 1 < (toUniqueSorted ((a0 :: rest).map AddedModule.remoteFullName)).length then
      .error (.syserror "multiple ModuleFullNames detected in selectRemoteAddedModuleForOpaqueIDIgnoreTargeting")
    else
      match uniqueByKeyFirst AddedModule.remoteCommitID (a0 :: rest) with
      | [] => .error (.panicIndexOutOfRange 0 0)
      | [u] => .ok (u, [])
      | u0 :: u1 :: us =>
        match commitProvider ((u0 :: u1 :: us).filterMap AddedModule.remoteModuleKey) with
        | .error e => .error (.wrap "could not resolve modules from buf.lock" e)
        | .ok [] => .error (.panicIndexOutOfRange 0 0)
        | .ok (c0 :: crest) =>
          match c0.createTime with
          | .error e => .error e
          | .ok t0 =>
            match pickLatestLoop (u0 :: u1 :: us) 0 u0 t0 crest with
            | .error e => .error e
            | .ok r => .ok (r, [(u0 :: u1 :: us).filterMap AddedModule.remoteModuleKey])

/-- selectAddedModuleForOpaqueIDIgnoreTargeting: prefer the first local
addedModule; only when there is none fall through to the remote selection. -/
def selectAddedModuleForOpaqueIDIgnoreTargeting (commitProvider : CommitProvider)
    (addedModules : List AddedModule) : Except Err (AddedModule × List (List ModuleKey)) :=
  match addedModules.filter AddedModule.IsLocal with
  | [] => selectRemoteAddedModuleForOpaqueIDIgnoreTargeting commitProvider addedModules
  | l :: _ => .ok (l, [])

/-- selectAddedModuleForOpaqueID: prefer target addedModules; with exactly
one target it is returned, with several the ignore-targeting selection runs
on the targets only. -/
def selectAddedModuleForOpaqueID (commitProvider : CommitProvider)
    (addedModules : List AddedModule) : Except Err (AddedModule × List (List ModuleKey)) :=
  match addedModules.filter (fun a => a.isTarget) with
  | [] => selectAddedModuleForOpaqueIDIgnoreTargeting commitProvider addedModules
  | [t] => .ok (t, [])
  | t0 :: t1 :: ts => selectAddedModuleForOpaqueIDIgnoreTargeting commitProvider (t0 :: t1 :: ts)

/-- addedModule.ToModule: a local addedModule is returned as-is (no provider
call); a remote one is materialized through the ModuleDataProvider.  The
second component records the argument of each GetModuleDatasForModuleKeys
call made. -/
def AddedModule.ToModule (moduleDataProvider : ModuleDataProvider) (a : AddedModule) :
    Except Err (ModuleR × List (List ModuleKey)) :=
  match a.localModule with
  | some m => .ok (m, [])
  | none =>
    match a.remoteModuleKey with
    | none => .error .nilDereference
    | some k =>
      match moduleDataProvider [k] with
      | .error e => .error e
      | .ok moduleDatas =>
        match moduleDatas with
        | [moduleData] =>
          if moduleData.moduleKey.moduleFullName ≠ k.moduleFullName then
            .error (.syserror "mismatched ModuleFullName from ModuleDataProvider")
          else
            .ok ({ opaqueID := moduleData.moduleKey.moduleFullName }, [[k]])
        | _ => .error (.syserror "expected 1 ModuleData")

/-- Loop of getUniqueSortedAddedModulesByOpaqueID over the OpaqueID groups
(`for _, addedModulesForOpaqueID := range opaqueIDToAddedModules`): select
one addedModule per group, stopping at the first error. -/
def selectLoop (commitProvider : CommitProvider) :
    List (Str × List AddedModule) → Except Err (List AddedModule)
  | [] => .ok []
  | g :: gs =>
    match selectAddedModuleForOpaqueID commitProvider g.2 with
    | .error e => .error e
    | .ok (resultAddedModule, _) =>
      match selectLoop commitProvider gs with
      | .error e => .error e
      | .ok resultAddedModules => .ok (resultAddedModule :: resultAddedModules)

/-- getUniqueSortedAddedModulesByOpaqueID: group by OpaqueID, select one
addedModule per group, sort the survivors by OpaqueID ascending (the Go
`sort.Slice` with a strict less; keys are pairwise distinct, so any sorting
algorithm yields this unique result, which insertion sort models). -/
def getUniqueSortedAddedModulesByOpaqueID (commitProvider : CommitProvider)
    (addedModules : List AddedModule) : Except Err (List AddedModule) :=
  match selectLoop commitProvider (groupByFirst AddedModule.opaqueID addedModules) with
  | .error e => .error e
  | .ok resultAddedModules =>
    .ok (resultAddedModules.insertionSort (fun x y => x.opaqueID ≤ y.opaqueID))

end Selection

namespace Selection

theorem pickLatestLoop_stay (uniq : List AddedModule) :
    ∀ (cs : List Commit) (i : Nat) (best : AddedModule) (bestTime : Nat),
      (∀ c ∈ cs, ∃ t, c.createTime = .ok t ∧ t ≤ bestTime) →
      pickLatestLoop uniq i best bestTime cs = .ok best
  | [], _, _, _, _ => rfl
  | c :: rest, i, best, bestTime, h => by
    rcases h c (List.mem_cons_self _ _) with ⟨t, hct, hle⟩
    simp only [pickLatestLoop, hct]
    rw [if_neg (by omega)]
    exact pickLatestLoop_stay uniq rest (i + 1) best bestTime
      (fun c' hc' => h c' (List.mem_cons_of_mem _ hc'))

theorem pickLatestLoop_mem (uniq : List AddedModule) :
    ∀ (cs : List Commit) (i : Nat) (best : AddedModule) (bestTime : Nat) (r : AddedModule),
      pickLatestLoop uniq i best bestTime cs = .ok r →
      r = best ∨ r ∈ uniq
  | [], _, _, _, r, h => by
    rw [pickLatestLoop] at h
    exact Or.inl (Except.ok.inj h).symm
  | c :: rest, i, best, bestTime, r, h => by
    rw [pickLatestLoop] at h
    split at h
    next => exact absurd h (by simp)
    next t hct =>
      split at h
      · split at h
        next am ham =>
          rcases pickLatestLoop_mem uniq rest (i + 1) am t r h with h' | h'
          · exact Or.inr (h' ▸ List.get?_mem ham)
          · exact Or.inr h'
        next ham => exact absurd h (by simp)
      · exact pickLatestLoop_mem uniq rest (i + 1) best bestTime r h

theorem pickLatestLoop_wins (uniq : List AddedModule) :
    ∀ (cs : List Commit) (ts : List Nat) (i : Nat) (best : AddedModule) (bestTime : Nat)
      (k : Nat),
      cs.map Commit.createTime = ts.map Except.ok →
      uniq.length = i + 1 + cs.length →
      k < ts.length →
      bestTime < ts.getD k 0 →
      (∀ l, l < ts.length → l ≠ k → ts.getD l 0 < ts.getD k 0) →
      pickLatestLoop uniq i best bestTime cs = .ok (uniq.getD (i + 1 + k) default)
  | [], ts, i, best, bestTime, k, hmap, hlen, hk, hbt, hmax => by
    have hts : ts = [] := by
      have hl := congrArg List.length hmap
      simp only [List.map_nil, List.length_nil, List.length_map] at hl
      exact List.length_eq_zero.mp hl.symm
    subst hts
    simp at hk
  | c :: cr, ts, i, best, bestTime, k, hmap, hlen, hk, hbt, hmax => by
    rcases ts with _ | ⟨t, tr⟩
    · simp at hk
    simp only [List.map_cons, List.cons.injEq] at hmap
    rcases hmap with ⟨hct, hmap'⟩
    have hlt : i + 1 < uniq.length := by
      simp only [List.length_cons] at hlen
      omega
    have ham : uniq.get? (i + 1) = some (uniq.getD (i + 1) default) := by
      rw [List.getD_eq_get?, List.get?_eq_get hlt]
      rfl
    match k with
    | 0 =>
      have hbt0 : bestTime < t := by simpa using hbt
      simp only [pickLatestLoop, hct]
      rw [if_pos hbt0]
      simp only [ham]
      rw [show i + 1 + 0 = i + 1 from by omega]
      apply pickLatestLoop_stay
      intro c' hc'
      have hmem : c'.createTime ∈ cr.map Commit.createTime := List.mem_map_of_mem _ hc'
      rw [hmap'] at hmem
      rcases List.mem_map.mp hmem with ⟨t', ht', heq⟩
      rcases List.mem_iff_get.mp ht' with ⟨⟨l, hl⟩, hget⟩
      refine ⟨t', heq.symm, ?_⟩
      have hx := hmax (l + 1) (by simpa using Nat.succ_lt_succ hl) (by omega)
      have h1 : (t :: tr).getD (l + 1) 0 = t' := by
        rw [List.getD_cons_succ, List.getD_eq_get?, List.get?_eq_get hl]
        simpa using hget
      have h2 : (t :: tr).getD 0 0 = t := List.getD_cons_zero
      rw [h1, h2] at hx
      exact le_of_lt hx
    | k' + 1 =>
      have hk' : k' < tr.length := by simpa using hk
      have hkk : (t :: tr).getD (k' + 1) 0 = tr.getD k' 0 := List.getD_cons_succ
      have ht0k : t < tr.getD k' 0 := by
        have hx := hmax 0 (by simp) (by omega)
        rw [List.getD_cons_zero, hkk] at hx
        exact hx
      have hmax' : ∀ l, l < tr.length → l ≠ k' → tr.getD l 0 < tr.getD k' 0 := by
        intro l hl hlk
        have hx := hmax (l + 1) (by simpa using Nat.succ_lt_succ hl) (by omega)
        rw [List.getD_cons_succ, hkk] at hx
        exact hx
      have hlen' : uniq.length = (i + 1) + 1 + cr.length := by
        simp only [List.length_cons] at hlen
        omega
      simp only [pickLatestLoop, hct]
      by_cases hb : bestTime < t
      · rw [if_pos hb]
        simp only [ham]
        rw [show i + 1 + (k' + 1) = (i + 1) + 1 + k' from by omega]
        exact pickLatestLoop_wins uniq cr tr (i + 1) (uniq.getD (i + 1) default) t k'
          hmap' hlen' hk' ht0k hmax'
      · rw [if_neg hb]
        have hbt' : bestTime < tr.getD k' 0 := by
          rw [hkk] at hbt
          exact hbt
        rw [show i + 1 + (k' + 1) = (i + 1) + 1 + k' from by omega]
        exact pickLatestLoop_wins uniq cr tr (i + 1) best bestTime k'
          hmap' hlen' hk' hbt' hmax'

end Selection

namespace Selection

theorem selectRemote_mem (cp : CommitProvider) (ams : List AddedModule)
    (m : AddedModule) (log : List (List ModuleKey))
    (h : selectRemoteAddedModuleForOpaqueIDIgnoreTargeting cp ams = .ok (m, log)) :
    m ∈ ams := by
  match ams with
  | [] =>
    rw [selectRemoteAddedModuleForOpaqueIDIgnoreTargeting] at h
    exact absurd h (by simp)
  | a0 :: rest =>
    rw [selectRemoteAddedModuleForOpaqueIDIgnoreTargeting] at h
    split at h
    · exact absurd h (by simp)
    · split at h
      · obtain ⟨h1, -⟩ := Prod.mk.inj (Except.ok.inj h)
        exact h1 ▸ List.mem_cons_self _ _
      · split at h
        · exact absurd h (by simp)
        · split at h
          next => exact absurd h (by simp)
          next u hu =>
            obtain ⟨h1, -⟩ := Prod.mk.inj (Except.ok.inj h)
            refine h1 ▸ uniqueByKeyFirst_sub AddedModule.remoteCommitID (a0 :: rest) u ?_
            rw [hu]
            exact List.mem_cons_self _ _
          next u0 u1 us huniq =>
            split at h
            next => exact absurd h (by simp)
            next => exact absurd h (by simp)
            next c0 crest hcp =>
              split at h
              next => exact absurd h (by simp)
              next t0 hct =>
                split at h
                next => exact absurd h (by simp)
                next r hr =>
                  obtain ⟨h1, -⟩ := Prod.mk.inj (Except.ok.inj h)
                  have hmemu : r ∈ u0 :: u1 :: us := by
                    rcases pickLatestLoop_mem _ _ _ _ _ _ hr with h' | h'
                    · exact h' ▸ List.mem_cons_self _ _
                    · exact h'
                  refine uniqueByKeyFirst_sub AddedModule.remoteCommitID (a0 :: rest) m ?_
                  rw [huniq]
                  exact h1 ▸ hmemu

theorem selectIgnore_mem (cp : CommitProvider) (ams : List AddedModule)
    (m : AddedModule) (log : List (List ModuleKey))
    (h : selectAddedModuleForOpaqueIDIgnoreTargeting cp ams = .ok (m, log)) :
    m ∈ ams := by
  rw [selectAddedModuleForOpaqueIDIgnoreTargeting] at h
  split at h
  · exact selectRemote_mem cp ams m log h
  next l ls hfilter =>
    obtain ⟨h1, -⟩ := Prod.mk.inj (Except.ok.inj h)
    have : l ∈ ams.filter AddedModule.IsLocal := by
      rw [hfilter]
      exact List.mem_cons_self _ _
    exact h1 ▸ List.mem_of_mem_filter this

theorem select_mem (cp : CommitProvider) (ams : List AddedModule)
    (m : AddedModule) (log : List (List ModuleKey))
    (h : selectAddedModuleForOpaqueID cp ams = .ok (m, log)) :
    m ∈ ams := by
  rw [selectAddedModuleForOpaqueID] at h
  split at h
  · exact selectIgnore_mem cp ams m log h
  next t hfilter =>
    obtain ⟨h1, -⟩ := Prod.mk.inj (Except.ok.inj h)
    have : t ∈ ams.filter (fun a => a.isTarget) := by
      rw [hfilter]
      exact List.mem_cons_self _ _
    exact h1 ▸ List.mem_of_mem_filter this
  next t0 t1 ts hfilter =>
    have hmem := selectIgnore_mem cp (t0 :: t1 :: ts) m log h
    rw [← hfilter] at hmem
    exact List.mem_of_mem_filter hmem

end Selection

namespace Selection

/-- C1: for an OpaqueID group in which (after target and locality
preferences) all candidates are remote with one ModuleFullName, the builder
first collapses candidates with identical commit IDs without consulting any
provider: when a single distinct commit ID remains, the result is the first
candidate added, with an empty provider-call log.  When more than one
distinct commit ID remains, CommitProvider is queried exactly once, with the
unique candidates' keys, and the candidate whose commit has the strictly
latest create time is selected — independent of how the commit IDs compare
lexically. -/
theorem selectRemote_collapse_and_latest_wins
    (cp : CommitProvider) (ams uniq : List AddedModule) (name : Str)
    (h1 : ams ≠ [])
    (h2 : ∀ am ∈ ams, am.remoteModuleKey.isSome = true ∧ am.remoteFullName = name)
    (hu : uniqueByKeyFirst AddedModule.remoteCommitID ams = uniq) :
    (uniq.length = 1 →
      selectRemoteAddedModuleForOpaqueIDIgnoreTargeting cp ams = .ok (ams.head h1, [])) ∧
    (∀ (commits : List Commit) (ts : List Nat) (j : Nat),
      1 < uniq.length →
      cp (uniq.filterMap AddedModule.remoteModuleKey) = .ok commits →
      commits.map Commit.createTime = ts.map Except.ok →
      ts.length = uniq.length →
      j < ts.length →
      (∀ l, l < ts.length → l ≠ j → ts.getD l 0 < ts.getD j 0) →
      selectRemoteAddedModuleForOpaqueIDIgnoreTargeting cp ams =
        .ok (uniq.getD j default, [uniq.filterMap AddedModule.remoteModuleKey])) := by
  rcases ams with _ | ⟨a0, rest⟩
  · exact absurd rfl h1
  have hall : (a0 :: rest).all (fun a => a.remoteModuleKey.isSome) = true := by
    rw [List.all_eq_true]
    intro a ha
    exact (h2 a ha).1
  constructor
  · -- one distinct commit ID: collapse, no provider call
    intro hlen1
    rw [selectRemoteAddedModuleForOpaqueIDIgnoreTargeting]
    rw [if_neg (not_not_intro hall)]
    rcases rest with _ | ⟨b, rest'⟩
    · rw [if_pos rfl]
      rfl
    · rw [if_neg (by simp : ¬(b :: rest' = []))]
      have hnames : toUniqueSorted ((a0 :: b :: rest').map AddedModule.remoteFullName) = [name] := by
        apply toUniqueSorted_of_all_eq
        · simp
        · intro x hx
          rcases List.mem_map.mp hx with ⟨am, ham, hxm⟩
          rw [← hxm]
          exact (h2 am ham).2
      rw [if_neg (by rw [hnames]; simp)]
      have huq : uniqueByKeyFirst AddedModule.remoteCommitID (a0 :: b :: rest') = [a0] := by
        rcases uniqueByKeyFirst_cons AddedModule.remoteCommitID a0 (b :: rest') with ⟨t, ht⟩
        have hlt : (a0 :: t).length = 1 := by
          rw [← ht, hu]
          exact hlen1
        simp only [List.length_cons] at hlt
        have hte : t = [] := List.length_eq_zero.mp (by omega)
        rw [ht, hte]
      simp only [huq]
      rfl
  · -- several distinct commit IDs: one provider call, latest create time wins
    intro commits ts j hlen hcp hts hlents hj hmax
    subst hu
    rcases huq : uniqueByKeyFirst AddedModule.remoteCommitID (a0 :: rest)
      with _ | ⟨u0, _ | ⟨u1, us⟩⟩
    · rw [huq] at hlen; simp at hlen
    · rw [huq] at hlen; simp at hlen
    rcases rest with _ | ⟨b, rest'⟩
    · rw [show uniqueByKeyFirst AddedModule.remoteCommitID [a0] = [a0] from rfl] at huq
      simp at huq
    rw [selectRemoteAddedModuleForOpaqueIDIgnoreTargeting]
    rw [if_neg (not_not_intro hall)]
    rw [if_neg (by simp : ¬(b :: rest' = []))]
    have hnames : toUniqueSorted ((a0 :: b :: rest').map AddedModule.remoteFullName) = [name] := by
      apply toUniqueSorted_of_all_eq
      · simp
      · intro x hx
        rcases List.mem_map.mp hx with ⟨am, ham, hxm⟩
        rw [← hxm]
        exact (h2 am ham).2
    rw [if_neg (by rw [hnames]; simp)]
    simp only [huq]
    rw [huq] at hcp hlents
    rcases commits with _ | ⟨c0, crest⟩
    · rcases ts with _ | ⟨t0, tr⟩
      · simp at hj
      · simp at hts
    rcases ts with _ | ⟨t0, tr⟩
    · simp at hj
    simp only [List.map_cons, List.cons.injEq] at hts
    rcases hts with ⟨hct0, htsr⟩
    simp only [hcp, hct0]
    have hcrest : crest.length = tr.length := by
      have := congrArg List.length htsr
      simpa using this
    match j with
    | 0 =>
      have hstay : pickLatestLoop (u0 :: u1 :: us) 0 u0 t0 crest = .ok u0 := by
        apply pickLatestLoop_stay
        intro c' hc'
        have hmem : c'.createTime ∈ crest.map Commit.createTime := List.mem_map_of_mem _ hc'
        rw [htsr] at hmem
        rcases List.mem_map.mp hmem with ⟨t', ht', heq⟩
        rcases List.mem_iff_get.mp ht' with ⟨⟨l, hl⟩, hget⟩
        refine ⟨t', heq.symm, ?_⟩
        have hx := hmax (l + 1) (by simpa using Nat.succ_lt_succ hl) (by omega)
        have hone : (t0 :: tr).getD (l + 1) 0 = t' := by
          rw [List.getD_cons_succ, List.getD_eq_get?, List.get?_eq_get hl]
          simpa using hget
        rw [hone, List.getD_cons_zero] at hx
        exact le_of_lt hx
      simp only [hstay]
      rfl
    | j' + 1 =>
      have hj' : j' < tr.length := by simpa using hj
      have hwins := pickLatestLoop_wins (u0 :: u1 :: us) crest tr 0 u0 t0 j' htsr
        (by
          simp only [List.length_cons] at hlents ⊢
          omega)
        hj'
        (by
          have hx := hmax 0 (by simp) (by omega)
          rw [List.getD_cons_zero, List.getD_cons_succ] at hx
          exact hx)
        (by
          intro l hl hlk
          have hx := hmax (l + 1) (by simpa using Nat.succ_lt_succ hl) (by omega)
          rw [List.getD_cons_succ, List.getD_cons_succ] at hx
          exact hx)
      simp only [hwins]
      rw [show 0 + 1 + j' = j' + 1 from by omega]

end Selection

namespace Selection

/-- Concrete module name used by the C1 witness. -/
def c1name : Str := [110]

/-- Remote key with commit ID "zz" (lexically later). -/
def c1kZ : ModuleKey := ⟨c1name, [122, 122]⟩

/-- Remote key with commit ID "aa" (lexically earlier). -/
def c1kA : ModuleKey := ⟨c1name, [97, 97]⟩

/-- Remote candidate pinned at commit "zz". -/
def c1rZ : AddedModule := newRemoteAddedModule c1kZ [] [] false

/-- Remote candidate pinned at commit "aa". -/
def c1rA : AddedModule := newRemoteAddedModule c1kA [] [] false

/-- Commit provider for the C1 witness: create time 5 for commit "zz",
create time 9 for commit "aa". -/
def c1cp : CommitProvider := fun keys =>
  .ok (keys.map (fun k => ⟨k, .ok (if k.commitID = [122, 122] then 5 else 9)⟩))

/-- Witness for C1 at a concrete input: three remote candidates of one
module pinned at commits "zz", "aa", "zz"; the duplicate "zz" collapses
before any provider call, one CommitProvider call is made with the two
unique keys, and the "aa" candidate wins on create time 9 > 5 although "aa"
sorts before "zz" lexically. -/
theorem selectRemote_collapse_and_latest_wins_witness :
    selectRemoteAddedModuleForOpaqueIDIgnoreTargeting c1cp [c1rZ, c1rA, c1rZ] =
      .ok (c1rA, [[c1kZ, c1kA]]) := by
  have h := (selectRemote_collapse_and_latest_wins c1cp [c1rZ, c1rA, c1rZ]
      [c1rZ, c1rA] c1name (by decide) (by decide) (by decide)).2
      [⟨c1kZ, .ok 5⟩, ⟨c1kA, .ok 9⟩] [5, 9] 1
      (by decide) (by decide) (by decide) (by decide) (by decide) (by decide)
  exact h

/-- C2: when an OpaqueID group contains entries flagged as build targets,
everything the selection can return is one of the target entries of the
group — all non-target entries are discarded before the locality and remote
tie-break preferences are considered. -/
theorem select_target_preference
    (cp : CommitProvider) (ams : List AddedModule)
    (hne : ams.filter (fun a => a.isTarget) ≠ [])
    (m : AddedModule) (log : List (List ModuleKey))
    (h : selectAddedModuleForOpaqueID cp ams = .ok (m, log)) :
    m.isTarget = true ∧ m ∈ ams := by
  rw [selectAddedModuleForOpaqueID] at h
  split at h
  next hfilter => exact absurd hfilter hne
  next t hfilter =>
    obtain ⟨h1, -⟩ := Prod.mk.inj (Except.ok.inj h)
    have hmem : m ∈ ams.filter (fun a => a.isTarget) := by
      rw [hfilter, h1]
      exact List.mem_cons_self _ _
    exact ⟨(List.mem_filter.mp hmem).2, List.mem_of_mem_filter hmem⟩
  next t0 t1 ts hfilter =>
    have hmem := selectIgnore_mem cp _ m log h
    rw [← hfilter] at hmem
    exact ⟨(List.mem_filter.mp hmem).2, List.mem_of_mem_filter hmem⟩

/-- Non-target local module named like the C2 remote target. -/
def c2local : AddedModule := newLocalAddedModule ⟨[110]⟩ false

/-- Target remote module of the C2 witness. -/
def c2remoteTarget : AddedModule := newRemoteAddedModule ⟨[110], [99]⟩ [] [] true

/-- Commit provider of the C2 witness (never reached). -/
def c2cp : CommitProvider := fun _ => .error (.errNotExist "unused")

/-- Witness for C2 at a concrete input: one non-target local module and one
target remote module with the same OpaqueID; the target remote entry is
selected. -/
theorem select_target_preference_witness :
    c2remoteTarget.isTarget = true ∧ c2remoteTarget ∈ [c2local, c2remoteTarget] :=
  select_target_preference c2cp [c2local, c2remoteTarget] (by decide)
    c2remoteTarget [] (by decide)

/-- C3: when an OpaqueID group (after target filtering) contains at least
one local module, the first local module added is selected, with an empty
CommitProvider call log — a local module always wins over every remote
candidate of the group — and ToModule on the selected addedModule returns
its local module with an empty ModuleDataProvider call log: the provider is
never invoked for the displaced remote keys. -/
theorem selectIgnore_local_preference
    (cp : CommitProvider) (ams : List AddedModule) (l : AddedModule)
    (hl : (ams.filter AddedModule.IsLocal).head? = some l) :
    selectAddedModuleForOpaqueIDIgnoreTargeting cp ams = .ok (l, []) ∧
    ∀ mdp : ModuleDataProvider,
      ∃ m : ModuleR, l.localModule = some m ∧ AddedModule.ToModule mdp l = .ok (m, []) := by
  have hmem : l ∈ ams.filter AddedModule.IsLocal := by
    rcases hf : ams.filter AddedModule.IsLocal with _ | ⟨a, as⟩
    · rw [hf] at hl; simp at hl
    · rw [hf] at hl
      simp only [List.head?_cons, Option.some.injEq] at hl
      rw [← hl]
      exact List.mem_cons_self _ _
  constructor
  · rw [selectAddedModuleForOpaqueIDIgnoreTargeting]
    split
    next hfilter => rw [hfilter] at hl; simp at hl
    next a as hfilter =>
      rw [hfilter] at hl
      simp only [List.head?_cons, Option.some.injEq] at hl
      rw [hl]
  · intro mdp
    have hloc : l.IsLocal = true := (List.mem_filter.mp hmem).2
    unfold AddedModule.IsLocal at hloc
    rcases hsome : l.localModule with _ | m
    · rw [hsome] at hloc; simp at hloc
    refine ⟨m, rfl, ?_⟩
    simp only [AddedModule.ToModule, hsome]

/-- Local module content of the C3 witness. -/
def c3mA : ModuleR := ⟨[110]⟩

/-- First-added local candidate of the C3 witness. -/
def c3lA : AddedModule := newLocalAddedModule c3mA false

/-- Second local candidate of the C3 witness. -/
def c3lB : AddedModule := newLocalAddedModule ⟨[110]⟩ false

/-- Displaced remote candidate of the C3 witness (same OpaqueID, different
commit). -/
def c3remote : AddedModule := newRemoteAddedModule ⟨[110], [55]⟩ [] [] false

/-- Commit provider of the C3 witness (never reached). -/
def c3cp : CommitProvider := fun _ => .error (.errNotExist "unused")

/-- Module data provider of the C3 witness (never reached). -/
def c3mdp : ModuleDataProvider := fun _ => .error (.errNotExist "unused")

/-- Witness for C3 at a concrete input: a remote candidate added before two
local candidates of the same OpaqueID; the first local candidate is
selected with no CommitProvider call, and ToModule returns its local module
with no ModuleDataProvider call. -/
theorem selectIgnore_local_preference_witness :
    selectAddedModuleForOpaqueIDIgnoreTargeting c3cp [c3remote, c3lA, c3lB] = .ok (c3lA, []) ∧
    c3lA.localModule = some c3mA ∧ AddedModule.ToModule c3mdp c3lA = .ok (c3mA, []) := by
  have h := selectIgnore_local_preference c3cp [c3remote, c3lA, c3lB] c3lA (by decide)
  exact ⟨h.1, by decide, by decide⟩

end Selection

namespace Selection

instance : IsTotal AddedModule (fun x y => x.opaqueID ≤ y.opaqueID) :=
  ⟨fun a b => le_total a.opaqueID b.opaqueID⟩

instance : IsTrans AddedModule (fun x y => x.opaqueID ≤ y.opaqueID) :=
  ⟨fun _ _ _ h1 h2 => le_trans h1 h2⟩

instance : IsAntisymm Str (· < ·) :=
  ⟨fun _ _ h1 h2 => ((lt_asymm h1) h2).elim⟩

theorem selectLoop_keys (cp : CommitProvider) :
    ∀ (groups : List (Str × List AddedModule)) (sel : List AddedModule),
      (∀ g ∈ groups, ∀ v ∈ g.2, AddedModule.opaqueID v = g.1) →
      selectLoop cp groups = .ok sel →
      sel.map AddedModule.opaqueID = groups.map Prod.fst
  | [], sel, _, h => by
    rw [selectLoop] at h
    rw [← Except.ok.inj h]
    rfl
  | g :: gs, sel, hkeys, h => by
    rw [selectLoop] at h
    split at h
    next => exact absurd h (by simp)
    next m log hsel =>
      split at h
      next => exact absurd h (by simp)
      next ms hrest =>
        rw [← Except.ok.inj h]
        simp only [List.map_cons, List.cons.injEq]
        constructor
        · exact hkeys g (List.mem_cons_self _ _) m (select_mem cp g.2 m log hsel)
        · exact selectLoop_keys cp gs ms
            (fun g' hg' => hkeys g' (List.mem_cons_of_mem _ hg')) hrest

theorem pairwise_lt_of_le_nodup :
    ∀ (L : List Str), L.Pairwise (· ≤ ·) → L.Nodup → L.Pairwise (· < ·)
  | [], _, _ => List.Pairwise.nil
  | a :: rest, hle, hnd => by
    rcases List.pairwise_cons.mp hle with ⟨hle1, hle2⟩
    rcases List.nodup_cons.mp hnd with ⟨hnd1, hnd2⟩
    refine List.pairwise_cons.mpr ⟨?_, pairwise_lt_of_le_nodup rest hle2 hnd2⟩
    intro b hb
    exact lt_of_le_of_ne (hle1 b hb) (fun he => hnd1 (he ▸ hb))

theorem getUniqueSorted_ok_char (cp : CommitProvider) (ams res : List AddedModule)
    (h : getUniqueSortedAddedModulesByOpaqueID cp ams = .ok res) :
    (res.map AddedModule.opaqueID).Pairwise (· < ·) ∧
    ∀ x, x ∈ res.map AddedModule.opaqueID ↔ x ∈ ams.map AddedModule.opaqueID := by
  rw [getUniqueSortedAddedModulesByOpaqueID] at h
  split at h
  next => exact absurd h (by simp)
  next sel hsel =>
    have hres := Except.ok.inj h
    have hkeys : sel.map AddedModule.opaqueID =
        (groupByFirst AddedModule.opaqueID ams).map Prod.fst := by
      apply selectLoop_keys cp _ sel _ hsel
      intro g hg v hv
      exact (mem_of_mem_groupByFirst AddedModule.opaqueID ams g hg v hv).2
    have hperm : res.Perm sel := by
      rw [← hres]
      exact List.perm_insertionSort _ sel
    have hmapperm : (res.map AddedModule.opaqueID).Perm (sel.map AddedModule.opaqueID) :=
      hperm.map _
    have hnd : (res.map AddedModule.opaqueID).Nodup := by
      rw [hmapperm.nodup_iff, hkeys]
      exact groupByFirst_keys_nodup AddedModule.opaqueID ams
    have hsorted : res.Pairwise (fun x y => x.opaqueID ≤ y.opaqueID) := by
      rw [← hres]
      exact List.sorted_insertionSort _ sel
    have hple : (res.map AddedModule.opaqueID).Pairwise (· ≤ ·) :=
      List.pairwise_map.mpr hsorted
    refine ⟨pairwise_lt_of_le_nodup _ hple hnd, ?_⟩
    intro x
    rw [hmapperm.mem_iff, hkeys]
    exact groupByFirst_keys_mem AddedModule.opaqueID ams x

/-- C7: for every successful resolution, the deduplicated module list has
pairwise-distinct OpaqueIDs sorted strictly ascending, and the OpaqueID
sequence does not depend on the order in which the modules were added: two
builds from inputs that are permutations of each other (with the same
provider) produce the same OpaqueID sequence.  In particular two builds from
identical inputs produce identical ordering. -/
theorem getUniqueSorted_pairwise_sorted_order_independent
    (cp : CommitProvider) (ams ams' res res' : List AddedModule)
    (hperm : ams.Perm ams')
    (h : getUniqueSortedAddedModulesByOpaqueID cp ams = .ok res)
    (h' : getUniqueSortedAddedModulesByOpaqueID cp ams' = .ok res') :
    (res.map AddedModule.opaqueID).Pairwise (· < ·) ∧
    res.map AddedModule.opaqueID = res'.map AddedModule.opaqueID := by
  rcases getUniqueSorted_ok_char cp ams res h with ⟨hp, hm⟩
  rcases getUniqueSorted_ok_char cp ams' res' h' with ⟨hp', hm'⟩
  refine ⟨hp, ?_⟩
  have hnd : (res.map AddedModule.opaqueID).Nodup :=
    hp.imp (fun hlt => ne_of_lt hlt)
  have hnd' : (res'.map AddedModule.opaqueID).Nodup :=
    hp'.imp (fun hlt => ne_of_lt hlt)
  have hmm : ∀ x, x ∈ res.map AddedModule.opaqueID ↔ x ∈ res'.map AddedModule.opaqueID := by
    intro x
    rw [hm x, hm' x]
    exact (hperm.map AddedModule.opaqueID).mem_iff
  have hpq : (res.map AddedModule.opaqueID).Perm (res'.map AddedModule.opaqueID) :=
    (List.perm_ext_iff_of_nodup hnd hnd').mpr hmm
  exact List.eq_of_perm_of_sorted hpq hp hp'

/-- Locally added modules of the C7 witness, OpaqueIDs 20, 5, 7 and a
duplicate 20. -/
def c7a : AddedModule := newLocalAddedModule ⟨[20]⟩ false

/-- Second C7 module. -/
def c7b : AddedModule := newLocalAddedModule ⟨[5]⟩ false

/-- Third C7 module. -/
def c7c : AddedModule := newLocalAddedModule ⟨[7]⟩ false

/-- Duplicate of the first C7 OpaqueID, different module value. -/
def c7a2 : AddedModule := newLocalAddedModule ⟨[20]⟩ true

/-- Commit provider of the C7 witness (never reached: every group has a
local module). -/
def c7cp : CommitProvider := fun _ => .error (.errNotExist "unused")

/-- Witness for C7 at a concrete input: the same four modules added in two
different orders resolve to strictly ascending, identical OpaqueID
sequences. -/
theorem getUniqueSorted_pairwise_sorted_order_independent_witness :
    (([c7b, c7c, c7a2] : List AddedModule).map AddedModule.opaqueID).Pairwise (· < ·) ∧
    ([c7b, c7c, c7a2] : List AddedModule).map AddedModule.opaqueID =
      ([c7b, c7c, c7a2] : List AddedModule).map AddedModule.opaqueID :=
  getUniqueSorted_pairwise_sorted_order_independent c7cp
    [c7a, c7b, c7c, c7a2] [c7c, c7a2, c7a, c7b]
    [c7b, c7c, c7a2] [c7b, c7c, c7a2]
    (by decide) (by decide) (by decide)

end Selection

/-!
Embedding of the 2023 bufmodule package (src/unnamed/part_002): the concrete
`module`, the digest-verifying `lazyModule`, and (src/unnamed/part_003) the
`moduleKey` constructor.
-/

namespace LazyMod

/-- Modelled from the spec: bufcas.DigestEqual (not under src/) — digests are
equal iff algorithm tag and byte value both match (spec section 4.1). -/
def DigestEqual (a b : Digest) : Bool :=
  decide (a = b)

/-- The concrete `module` of the 2023 bufmodule package: its ModuleInfo
digest, its file tree (path to content), and its dependency modules. -/
inductive ModuleV where
  | mk (digest : Except Err Digest) (files : List (String × String)) (deps : List ModuleV)

/-- ModuleInfo.Digest of the module. -/
def ModuleV.digest : ModuleV → Except Err Digest
  | .mk d _ _ => d

/-- File tree of the module. -/
def ModuleV.files : ModuleV → List (String × String)
  | .mk _ fs _ => fs

/-- Dependency list of the module. -/
def ModuleV.depsList : ModuleV → List ModuleV
  | .mk _ _ ds => ds

/-- Module.GetFile on the concrete module: the content at the path, or a
not-exist error. -/
def ModuleV.GetFile (m : ModuleV) (path : String) : Except Err String :=
  match m.files.find? (fun f => decide (f.1 = path)) with
  | some f => .ok f.2
  | none => .error (.errNotExist path)

/-- Module.StatFileInfo on the concrete module: the file info (reduced to
the path) when present. -/
def ModuleV.StatFileInfo (m : ModuleV) (path : String) : Except Err String :=
  match m.files.find? (fun f => decide (f.1 = path)) with
  | some f => .ok f.1
  | none => .error (.errNotExist path)

/-- Module.WalkFileInfos on the concrete module, as the list of walked
paths. -/
def ModuleV.WalkFileInfos (m : ModuleV) : Except Err (List String) :=
  .ok (m.files.map Prod.fst)

/-- Module.DepModules on the concrete module. -/
def ModuleV.DepModules (m : ModuleV) : Except Err (List ModuleV) :=
  .ok m.depsList

/-- lazyModule: the digest recorded in its ModuleInfo (the ModuleKey
digest), and the result of getModuleFunc (memoized by sync.OnceValues, so a
fixed value here). -/
structure LazyModule where
  moduleInfoDigest : Except Err Digest
  getModuleResult : Except Err ModuleV

/-- lazyModule.getModule: fetch the module, read the expected digest from
the ModuleInfo and the actual digest from the fetched module, and fail with
an error carrying both digests when they differ; only on success is the
fetched module handed out. -/
def LazyModule.getModule (m : LazyModule) : Except Err ModuleV :=
  match m.getModuleResult with
  | .error e => .error e
  | .ok module =>
    match m.moduleInfoDigest with
    | .error e => .error e
    | .ok expectedDigest =>
      match module.digest with
      | .error e => .error e
      | .ok actualDigest =>
        if ¬ DigestEqual expectedDigest actualDigest then
          .error (.digestMismatch expectedDigest actualDigest)
        else
          .ok module

/-- lazyModule.GetFile. -/
def LazyModule.GetFile (m : LazyModule) (path : String) : Except Err String :=
  match m.getModule with
  | .error e => .error e
  | .ok module => module.GetFile path

/-- lazyModule.StatFileInfo. -/
def LazyModule.StatFileInfo (m : LazyModule) (path : String) : Except Err String :=
  match m.getModule with
  | .error e => .error e
  | .ok module => module.StatFileInfo path

/-- lazyModule.WalkFileInfos. -/
def LazyModule.WalkFileInfos (m : LazyModule) : Except Err (List String) :=
  match m.getModule with
  | .error e => .error e
  | .ok module => module.WalkFileInfos

/-- lazyModule.DepModules. -/
def LazyModule.DepModules (m : LazyModule) : Except Err (List ModuleV) :=
  match m.getModule with
  | .error e => .error e
  | .ok module => module.DepModules

/-- C4: for a lazily fetched module whose fetched content produces a digest
different from the digest recorded in its ModuleKey, every file-access
operation — GetFile, StatFileInfo, WalkFileInfos, DepModules — fails with
the verification error carrying both the expected and the actual digest,
whose rendered message contains both digest encodings; the fetched content
is never handed to the caller. -/
theorem lazyModule_digest_mismatch_fails
    (lm : LazyModule) (mv : ModuleV) (e a : Digest)
    (hfetch : lm.getModuleResult = .ok mv)
    (hexp : lm.moduleInfoDigest = .ok e)
    (hact : mv.digest = .ok a)
    (hne : e ≠ a) :
    (∀ p, lm.GetFile p = .error (.digestMismatch e a)) ∧
    (∀ p, lm.StatFileInfo p = .error (.digestMismatch e a)) ∧
    lm.WalkFileInfos = .error (.digestMismatch e a) ∧
    lm.DepModules = .error (.digestMismatch e a) ∧
    (∃ pre mid, (Err.digestMismatch e a).message =
      pre ++ digestString e ++ mid ++ digestString a) := by
  have hgm : lm.getModule = .error (.digestMismatch e a) := by
    simp only [LazyModule.getModule, hfetch, hexp, hact]
    rw [if_pos (by simp [DigestEqual, hne])]
  refine ⟨?_, ?_, ?_, ?_, "expected digest ", ", got ", rfl⟩
  · intro p
    simp only [LazyModule.GetFile, hgm]
  · intro p
    simp only [LazyModule.StatFileInfo, hgm]
  · simp only [LazyModule.WalkFileInfos, hgm]
  · simp only [LazyModule.DepModules, hgm]

/-- Digest recorded in the C4 witness ModuleKey. -/
def c4expected : Digest := ⟨"b5", 11⟩

/-- Digest the fetched content of the C4 witness produces. -/
def c4actual : Digest := ⟨"b5", 22⟩

/-- Fetched module of the C4 witness: tampered content whose digest differs
from the recorded one. -/
def c4module : ModuleV := .mk (.ok c4actual) [("a.proto", "syntax bytes")] []

/-- Lazy module of the C4 witness. -/
def c4lazy : LazyModule := ⟨.ok c4expected, .ok c4module⟩

/-- Witness for C4 at a concrete input: every file access on the tampered
lazy module fails with the digest-mismatch error, whose message embeds both
digest encodings. -/
theorem lazyModule_digest_mismatch_fails_witness :
    c4lazy.GetFile "a.proto" = .error (.digestMismatch c4expected c4actual) ∧
    c4lazy.StatFileInfo "a.proto" = .error (.digestMismatch c4expected c4actual) ∧
    c4lazy.WalkFileInfos = .error (.digestMismatch c4expected c4actual) ∧
    c4lazy.DepModules = .error (.digestMismatch c4expected c4actual) ∧
    (Err.digestMismatch c4expected c4actual).message =
      "expected digest " ++ digestString c4expected ++ ", got " ++ digestString c4actual := by
  have h := lazyModule_digest_mismatch_fails c4lazy c4module c4expected c4actual
    rfl rfl rfl (by decide)
  exact ⟨h.1 "a.proto", h.2.1 "a.proto", h.2.2.1, h.2.2.2.1, rfl⟩

end LazyMod

namespace KeyCtor

/-- The `moduleKey` struct: ModuleFullName (nil-able), commit ID, and
exactly one of a known digest and a lazy digest function (after
construction; sync.OnceValues memoization of getDigest has no observable
effect in the pure model). -/
structure moduleKeyStruct where
  moduleFullName : Option Str
  commitID : Str
  digest : Option Digest
  getDigest : Option (Unit → Except Err Digest)

/-- newModuleKey: validates that the ModuleFullName is non-nil, the commit
ID is non-empty, and exactly one of digest and getDigest is set. -/
def newModuleKey : Option Str → Str → Option Digest →
    Option (Unit → Except Err Digest) → Except Err moduleKeyStruct
  | none, _, _, _ => .error (.errorMsg "nil ModuleFullName when constructing ModuleKey")
  | some fullName, commitID, digest, getDigest =>
    if commitID = [] then
      .error (.errorMsg "empty commitID when constructing ModuleKey")
    else
      match digest, getDigest with
      | some _, some _ =>
        .error (.errorMsg "cannot set both digest and getDigest when constructing ModuleKey")
      | none, none =>
        .error (.errorMsg "nil digest and getDigest when constructing ModuleKey")
      | some d, none =>
        .ok { moduleFullName := some fullName, commitID, digest := some d, getDigest := none }
      | none, some g =>
        .ok { moduleFullName := some fullName, commitID, digest := none, getDigest := some g }

/-- NewModuleKey (known digest; reading buf.lock files). -/
def NewModuleKey (moduleFullName : Option Str) (commitID : Str)
    (digest : Option Digest) : Except Err moduleKeyStruct :=
  newModuleKey moduleFullName commitID digest none

/-- NewModuleKeyForLazyDigest. -/
def NewModuleKeyForLazyDigest (moduleFullName : Option Str) (commitID : Str)
    (getDigest : Option (Unit → Except Err Digest)) : Except Err moduleKeyStruct :=
  newModuleKey moduleFullName commitID none getDigest

/-- C9: constructing a ModuleKey fails whenever the ModuleFullName is nil,
the commit ID is empty, or not exactly one of a known digest and a lazy
digest function is supplied; and every successfully constructed key has a
non-nil ModuleFullName and a non-empty commit ID. -/
theorem newModuleKey_validation :
    (∀ cid d g, ∃ msg, newModuleKey none cid d g = .error (.errorMsg msg)) ∧
    (∀ fn d g, ∃ msg, newModuleKey (some fn) [] d g = .error (.errorMsg msg)) ∧
    (∀ fn cid d g, cid ≠ [] →
      ∃ msg, newModuleKey (some fn) cid (some d) (some g) = .error (.errorMsg msg)) ∧
    (∀ fn cid, cid ≠ [] →
      ∃ msg, newModuleKey (some fn) cid none none = .error (.errorMsg msg)) ∧
    (∀ fn cid d g k, newModuleKey fn cid d g = .ok k →
      k.moduleFullName.isSome = true ∧ k.commitID ≠ []) := by
  refine ⟨?_, ?_, ?_, ?_, ?_⟩
  · intro cid d g
    exact ⟨_, rfl⟩
  · intro fn d g
    simp only [newModuleKey.eq_def]
    exact ⟨_, rfl⟩
  · intro fn cid d g hcid
    simp only [newModuleKey.eq_def]
    rw [if_neg hcid]
    exact ⟨_, rfl⟩
  · intro fn cid hcid
    simp only [newModuleKey.eq_def]
    rw [if_neg hcid]
    exact ⟨_, rfl⟩
  · intro fn cid d g k h
    match fn with
    | none =>
      rw [newModuleKey] at h
      exact absurd h (by simp)
    | some fullName =>
      simp only [newModuleKey.eq_def] at h
      split at h
      · exact absurd h (by simp)
      next hcid =>
        split at h
        · exact absurd h (by simp)
        · exact absurd h (by simp)
        · rw [← Except.ok.inj h]
          exact ⟨rfl, hcid⟩
        · rw [← Except.ok.inj h]
          exact ⟨rfl, hcid⟩

/-- Witness for C9 at concrete inputs: the four rejections, and a successful
construction with non-nil name and non-empty commit ID. -/
theorem newModuleKey_validation_witness :
    (∃ msg, newModuleKey none [50] (some ⟨"b5", 3⟩) none = .error (.errorMsg msg)) ∧
    (∃ msg, newModuleKey (some [51]) [] (some ⟨"b5", 3⟩) none = .error (.errorMsg msg)) ∧
    (∃ msg, newModuleKey (some [51]) [50] (some ⟨"b5", 3⟩)
      (some (fun _ => .ok ⟨"b5", 3⟩)) = .error (.errorMsg msg)) ∧
    (∃ msg, newModuleKey (some [51]) [50] none none = .error (.errorMsg msg)) ∧
    ((newModuleKey (some [51]) [50] (some ⟨"b5", 3⟩) none).map
        (fun k => (k.moduleFullName.isSome, decide (k.commitID ≠ []))) = .ok (true, true)) := by
  refine ⟨newModuleKey_validation.1 [50] (some ⟨"b5", 3⟩) none,
    newModuleKey_validation.2.1 [51] (some ⟨"b5", 3⟩) none,
    newModuleKey_validation.2.2.1 [51] [50] ⟨"b5", 3⟩ (fun _ => .ok ⟨"b5", 3⟩) (by decide),
    newModuleKey_validation.2.2.2.1 [51] [50] (by decide),
    rfl⟩

end KeyCtor

/-!
Embedding of `private/bufnew/bufmodule/cache.go`:
`cache.getModuleForFilePathUncached`, the computation that
`cache.GetModuleForFilePath` performs once per file path.
-/

namespace Cache

/-- Module as the ModuleSet cache consults it: its OpaqueID and the file
paths its bucket contains (`StatFileInfo` succeeds exactly on these). -/
structure CModule where
  opaqueID : Str
  filePaths : List String
deriving DecidableEq, Repr

/-- module.StatFileInfo(ctx, filePath) returning no error. -/
def CModule.statOk (m : CModule) (filePath : String) : Bool :=
  m.filePaths.contains filePath

/-- moduleSet.GetModuleForOpaqueID: the module of the set with the given
OpaqueID (nil when absent; unreachable on the call path below, modelled as a
nil dereference). -/
def getModuleForOpaqueID (modules : List CModule) (opaqueID : Str) : Option CModule :=
  modules.find? (fun m => decide (m.opaqueID = opaqueID))

/-- cache.getModuleForFilePathUncached: collect the OpaqueIDs of all modules
whose bucket contains the path (a Go map used as a set: duplicates
collapse); with none, fail; with exactly one, return that module; with
several, fail naming all owning OpaqueIDs, sorted. -/
def getModuleForFilePathUncached (modules : List CModule) (filePath : String) :
    Except Err CModule :=
  match uniqueByKeyFirst id
      ((modules.filter (fun m => m.statOk filePath)).map CModule.opaqueID) with
  | [] => .error (.noModuleContainsFile filePath)
  | [matchingOpaqueID] =>
    match getModuleForOpaqueID modules matchingOpaqueID with
    | some m => .ok m
    | none => .error .nilDereference
  | x :: y :: rest => .error (.multipleModulesContainedFile filePath (sortStrs (x :: y :: rest)))

theorem uniqueByKeyFirst_id_mem {α : Type} [DecidableEq α] (l : List α) (x : α) :
    x ∈ uniqueByKeyFirst id l ↔ x ∈ l := by
  constructor
  · exact uniqueByKeyFirst_sub id l x
  · intro hx
    have hkey : x ∈ (groupByFirst (id : α → α) l).map Prod.fst := by
      rw [groupByFirst_keys_mem]
      simpa using hx
    rcases List.mem_map.mp hkey with ⟨g, hg, hfst⟩
    rcases hg2 : g.2 with _ | ⟨h, hs⟩
    · exact absurd hg2 (groupByFirst_nonempty id l g hg)
    · have hh : h ∈ g.2 := by rw [hg2]; exact List.mem_cons_self _ _
      have := (mem_of_mem_groupByFirst id l g hg h hh).2
      refine List.mem_filterMap.mpr ⟨g, hg, ?_⟩
      rw [hg2]
      simp only [List.head?_cons, Option.some.injEq]
      rw [← hfst, ← this]
      rfl

theorem find?_opaqueID_of_nodup :
    ∀ (modules : List CModule), (modules.map CModule.opaqueID).Nodup →
      ∀ m ∈ modules, getModuleForOpaqueID modules m.opaqueID = some m
  | [], _, m, hm => by simp at hm
  | a :: rest, hnd, m, hm => by
    rcases List.mem_cons.mp hm with h | h
    · subst h
      unfold getModuleForOpaqueID
      rw [List.find?_cons_of_pos _ (by simp)]
    · have hnd2 : (a.opaqueID :: rest.map CModule.opaqueID).Nodup := by simpa using hnd
      rcases List.nodup_cons.mp hnd2 with ⟨hna, hnr⟩
      have hne : ¬ a.opaqueID = m.opaqueID := by
        intro he
        exact hna (he ▸ List.mem_map_of_mem CModule.opaqueID h)
      unfold getModuleForOpaqueID
      rw [List.find?_cons_of_neg _ (by simpa using hne)]
      exact find?_opaqueID_of_nodup rest hnr m h

/-- C6: on a ModuleSet (whose modules have pairwise-distinct OpaqueIDs),
resolving a file path finds: no owning module — failure with the
no-module-contains-file error; exactly one owning module — that module is
returned; two or more owning modules — failure with the conflict error
naming every owning module's OpaqueID.  Multiple ownership is never
silently resolved. -/
theorem getModuleForFilePath_cases
    (modules : List CModule) (p : String)
    (hnd : (modules.map CModule.opaqueID).Nodup) :
    ((∀ m ∈ modules, m.statOk p = false) →
      getModuleForFilePathUncached modules p = .error (.noModuleContainsFile p)) ∧
    (∀ m ∈ modules, m.statOk p = true →
      (∀ m' ∈ modules, m'.statOk p = true → m' = m) →
      getModuleForFilePathUncached modules p = .ok m) ∧
    (∀ m1 m2, m1 ∈ modules → m2 ∈ modules → m1 ≠ m2 →
      m1.statOk p = true → m2.statOk p = true →
      ∃ ids, getModuleForFilePathUncached modules p =
          .error (.multipleModulesContainedFile p ids) ∧
        ∀ x, x ∈ ids ↔ ∃ m ∈ modules, m.statOk p = true ∧ m.opaqueID = x) := by
  refine ⟨?_, ?_, ?_⟩
  · intro hall
    have hfil : modules.filter (fun m => m.statOk p) = [] := by
      rw [List.filter_eq_nil_iff]
      intro m hm
      simp [hall m hm]
    rw [getModuleForFilePathUncached, hfil]
    rfl
  · intro m hm hstat huniq
    have hmf : m ∈ modules.filter (fun m => m.statOk p) :=
      List.mem_filter.mpr ⟨hm, hstat⟩
    rcases hf : modules.filter (fun m => m.statOk p) with _ | ⟨a, as⟩
    · rw [hf] at hmf; simp at hmf
    have hallf : ∀ x ∈ (a :: as).map CModule.opaqueID, x = m.opaqueID := by
      intro x hx
      rcases List.mem_map.mp hx with ⟨m', hm', hxo⟩
      rw [← hf] at hm'
      have := huniq m' (List.mem_of_mem_filter hm') (List.mem_filter.mp hm').2
      rw [← hxo, this]
    have humap : uniqueByKeyFirst id ((a :: as).map CModule.opaqueID) = [m.opaqueID] := by
      rcases hmap : (a :: as).map CModule.opaqueID with _ | ⟨x, xs⟩
      · simp at hmap
      · rw [hmap] at hallf
        rw [uniqueByKeyFirst_of_all_eq id x xs m.opaqueID hallf]
        rw [hallf x (List.mem_cons_self _ _)]
    rw [getModuleForFilePathUncached, hf, humap]
    simp only [find?_opaqueID_of_nodup modules hnd m hm]
  · intro m1 m2 hm1 hm2 hne hs1 hs2
    have hino := List.inj_on_of_nodup_map hnd
    have hneid : m1.opaqueID ≠ m2.opaqueID := by
      intro he
      exact hne (hino hm1 hm2 he)
    have h1U : m1.opaqueID ∈ uniqueByKeyFirst id
        ((modules.filter (fun m => m.statOk p)).map CModule.opaqueID) := by
      rw [uniqueByKeyFirst_id_mem]
      exact List.mem_map_of_mem _ (List.mem_filter.mpr ⟨hm1, hs1⟩)
    have h2U : m2.opaqueID ∈ uniqueByKeyFirst id
        ((modules.filter (fun m => m.statOk p)).map CModule.opaqueID) := by
      rw [uniqueByKeyFirst_id_mem]
      exact List.mem_map_of_mem _ (List.mem_filter.mpr ⟨hm2, hs2⟩)
    rcases hU : uniqueByKeyFirst id
        ((modules.filter (fun m => m.statOk p)).map CModule.opaqueID) with _ | ⟨x, _ | ⟨y, rest⟩⟩
    · rw [hU] at h1U; simp at h1U
    · rw [hU] at h1U h2U
      simp only [List.mem_singleton] at h1U h2U
      exact absurd (h1U.trans h2U.symm) hneid
    · refine ⟨sortStrs (x :: y :: rest), ?_, ?_⟩
      · rw [getModuleForFilePathUncached, hU]
      · intro z
        have hperm : (sortStrs (x :: y :: rest)).Perm (x :: y :: rest) :=
          List.perm_insertionSort _ _
        rw [hperm.mem_iff, ← hU, uniqueByKeyFirst_id_mem]
        constructor
        · intro hz
          rcases List.mem_map.mp hz with ⟨m', hm', hzo⟩
          exact ⟨m', List.mem_of_mem_filter hm', (List.mem_filter.mp hm').2, hzo⟩
        · rintro ⟨m', hm', hsm', hzo⟩
          exact List.mem_map.mpr ⟨m', List.mem_filter.mpr ⟨hm', hsm'⟩, hzo⟩

/-- First module of the C6 witness, owning a.proto and shared.proto. -/
def c6m1 : CModule := ⟨[1], ["a.proto", "shared.proto"]⟩

/-- Second module of the C6 witness, owning b.proto and shared.proto. -/
def c6m2 : CModule := ⟨[2], ["b.proto", "shared.proto"]⟩

/-- Witness for C6 at a concrete ModuleSet: an unowned path fails with the
no-module error, a singly-owned path returns its module, and a doubly-owned
path fails with the conflict error naming both owners. -/
theorem getModuleForFilePath_cases_witness :
    getModuleForFilePathUncached [c6m1, c6m2] "c.proto" =
      .error (.noModuleContainsFile "c.proto") ∧
    getModuleForFilePathUncached [c6m1, c6m2] "a.proto" = .ok c6m1 ∧
    getModuleForFilePathUncached [c6m1, c6m2] "shared.proto" =
      .error (.multipleModulesContainedFile "shared.proto" [[1], [2]]) := by
  have h := getModuleForFilePath_cases [c6m1, c6m2] "c.proto" (by decide)
  have h2 := getModuleForFilePath_cases [c6m1, c6m2] "a.proto" (by decide)
  refine ⟨h.1 (by decide), h2.2.1 c6m1 (by decide) (by decide) ?_, by decide⟩
  intro m' hm' hsm'
  fin_cases hm'
  · rfl
  · exact absurd hsm' (by decide)
end Cache

/-!
Embedding of `private/bufpkg/bufmodule/bufmoduleapi/module_data_provider.go`:
`moduleDataProvider.GetModuleDatasForModuleKeys`.  The per-registry fetch
(`getModuleDatasForRegistryAndModuleKeys`) is passed as a function; the
claims concern the outer grouping/scattering logic.
-/

namespace DataProvider

/-- ModuleKey as the bufmoduleapi provider consults it: registry host
(`ModuleFullName().Registry()`), full name string, commit ID. -/
structure MDKey where
  registry : String
  moduleFullNameStr : String
  commitID : String
deriving DecidableEq, Repr

/-- ModuleData returned for one key. -/
structure MData where
  moduleKey : MDKey
deriving DecidableEq, Repr

/-- Modelled from the spec: getKeyToIndexedValues (bufmoduleapi helper, not
under src/) — groups the values by key, remembering each value's index in
the input slice (spec section 4.3: coalesce keys by registry host while
keeping positional alignment); keys in first-occurrence order. -/
def getKeyToIndexedValues (key : MDKey → String) (values : List MDKey) :
    List (String × List (Nat × MDKey)) :=
  groupByFirst (fun iv => key iv.2) values.enum

/-- Go slice write `s[i] = v`: in-bounds writes update the element,
out-of-bounds writes abort with index out of range — Go bounds-checks
against the slice LENGTH, not its capacity. -/
def sliceSet (s : List MData) (i : Nat) (v : MData) : Except Err (List MData) :=
  if i < s.length then .ok (s.set i v) else .error (.panicIndexOutOfRange i s.length)

/-- Loop `for i, registryModuleData := range registryModuleDatas {
moduleDatas[indexedModuleKeys[i].Index] = registryModuleData }`.  More
values than indexed keys would abort on the `indexedModuleKeys[i]` access. -/
def scatterByIndex (moduleDatas : List MData) :
    List (Nat × MDKey) → List MData → Except Err (List MData)
  | _, [] => .ok moduleDatas
  | [], _ :: _ => .error (.panicIndexOutOfRange 0 0)
  | (index, _) :: irest, v :: vrest =>
    match sliceSet moduleDatas index v with
    | .error e => .error e
    | .ok moduleDatas2 => scatterByIndex moduleDatas2 irest vrest

/-- Loop over the registry groups of GetModuleDatasForModuleKeys
(`for registry, indexedModuleKeys := range registryToIndexedModuleKeys`). -/
def registryLoop
    (getModuleDatasForRegistryAndModuleKeys : String → List MDKey → Except Err (List MData)) :
    List (String × List (Nat × MDKey)) → List MData → Except Err (List MData)
  | [], moduleDatas => .ok moduleDatas
  | (registry, indexedModuleKeys) :: grest, moduleDatas =>
    match getModuleDatasForRegistryAndModuleKeys registry (indexedModuleKeys.map Prod.snd) with
    | .error e => .error e
    | .ok registryModuleDatas =>
      match scatterByIndex moduleDatas indexedModuleKeys registryModuleDatas with
      | .error e => .error e
      | .ok moduleDatas2 =>
        registryLoop getModuleDatasForRegistryAndModuleKeys grest moduleDatas2

/-- moduleDataProvider.GetModuleDatasForModuleKeys: reject duplicate
ModuleFullNames (bufmodule.ModuleFullNameStringToUniqueValue, not under
src/, modelled as a duplicate check), group the keys by registry, fetch each
registry's ModuleDatas, and scatter them back by input index into
`moduleDatas` — which the source creates as
`make([]bufmodule.ModuleData, 0, len(moduleKeys))`: a slice of LENGTH ZERO
(only the capacity is len(moduleKeys)), modelled as the empty list. -/
def GetModuleDatasForModuleKeys
    (getModuleDatasForRegistryAndModuleKeys : String → List MDKey → Except Err (List MData))
    (moduleKeys : List MDKey) : Except Err (List MData) :=
  if (moduleKeys.map (fun k => k.moduleFullNameStr)).Nodup then
    registryLoop getModuleDatasForRegistryAndModuleKeys
      (getKeyToIndexedValues (fun k => k.registry) moduleKeys) []
  else
    .error (.errorMsg "duplicate ModuleFullNames")

theorem getKeyToIndexedValues_cons (key : MDKey → String) (k0 : MDKey) (rest : List MDKey) :
    ∃ tail gtail,
      getKeyToIndexedValues key (k0 :: rest) = (key k0, (0, k0) :: tail) :: gtail := by
  unfold getKeyToIndexedValues
  rw [show (k0 :: rest).enum = (0, k0) :: List.enumFrom 1 rest from rfl]
  rw [groupByFirst]
  exact ⟨_, _, rfl⟩

/-- C5 (code-bug evidence): the result slice of GetModuleDatasForModuleKeys
is created with length zero, so for every per-registry fetch that honors
the provider contract (ok result, one ModuleData per key, positionally
aligned) and every call with at least one input key and distinct full
names, the call aborts with index-out-of-range on the very first scatter
write instead of returning the positionally aligned slice the contract
documents. -/
theorem getModuleDatas_never_ok_on_nonempty
    (getForRegistry : String → List MDKey → Except Err (List MData))
    (moduleKeys : List MDKey)
    (hne : moduleKeys ≠ [])
    (hwf : ∀ r ks, ∃ vals, getForRegistry r ks = .ok vals ∧ vals.length = ks.length)
    (hnd : (moduleKeys.map (fun k => k.moduleFullNameStr)).Nodup) :
    GetModuleDatasForModuleKeys getForRegistry moduleKeys =
      .error (.panicIndexOutOfRange 0 0) := by
  rcases moduleKeys with _ | ⟨k0, rest⟩
  · exact absurd rfl hne
  rw [GetModuleDatasForModuleKeys, if_pos hnd]
  obtain ⟨tail, gtail, hg⟩ := getKeyToIndexedValues_cons (fun k => k.registry) k0 rest
  rw [hg, registryLoop]
  rcases hwf k0.registry (((0, k0) :: tail).map Prod.snd) with ⟨vals, hvals, hlen⟩
  rcases vals with _ | ⟨v, vr⟩
  · simp at hlen
  simp only [hvals]
  rfl

/-- Per-registry fetch of the C5 witness: echoes one ModuleData per key. -/
def c5provider : String → List MDKey → Except Err (List MData) :=
  fun _ ks => .ok (ks.map (fun k => ⟨k⟩))

/-- First key of the C5 witness. -/
def c5k1 : MDKey := ⟨"buf.build", "buf.build/acme/a", "c1"⟩

/-- Second key of the C5 witness, on another registry. -/
def c5k2 : MDKey := ⟨"other.build", "other.build/acme/b", "c2"⟩

/-- Witness for C5 at a concrete input: two keys on two registries with a
contract-honoring fetch still abort with index-out-of-range. -/
theorem getModuleDatas_never_ok_on_nonempty_witness :
    GetModuleDatasForModuleKeys c5provider [c5k1, c5k2] =
      .error (.panicIndexOutOfRange 0 0) :=
  getModuleDatas_never_ok_on_nonempty c5provider [c5k1, c5k2] (by decide)
    (fun _ ks => ⟨ks.map (fun k => ⟨k⟩), rfl, by simp⟩) (by decide)

/-- Key of the C10 evaluation. -/
def c10key : MDKey := ⟨"buf.build", "buf.build/acme/petapis", "c3"⟩

/-- Per-registry fetch of the C10 evaluation: echoes one ModuleData per
key. -/
def c10provider : String → List MDKey → Except Err (List MData) :=
  fun _ ks => .ok (ks.map (fun k => ⟨k⟩))

/-- C10 (code-bug evidence): with a single input key and a well-formed
per-registry fetch, the first indexed write `moduleDatas[0] = ...` targets
the slice created with `make([]ModuleData, 0, len(moduleKeys))`, whose
length is zero — the write is out of bounds and the call aborts with index
out of range [0] on length 0. -/
theorem getModuleDatas_single_key_out_of_range :
    GetModuleDatasForModuleKeys c10provider [c10key] =
      .error (.panicIndexOutOfRange 0 0) := by
  decide

end DataProvider

/-!
Embedding of `ModuleDigestB5` (src/unnamed/part_002, 2023 bufmodule
package): the composite b5 module digest.
-/

namespace DigestAlg

/-- Dependency module as ModuleDigestB5 consults it: an optional name
(which must not influence any digest) and its own Digest
(`depModule.Digest(ctx)`). -/
structure DepModule where
  name : Option String
  digest : Except Err Digest

/-- Module as ModuleDigestB5 consults it: an optional name, its file tree
(path to per-file content digest value), and its dependency modules. -/
structure ModuleD where
  name : Option String
  files : List (Str × Nat)
  deps : List DepModule

/-- Modelled from the spec: the file-manifest digest (bufcas manifest
digesting via moduleReadBucketDigestB5, not under src/) — canonicalize the
file list by sorting on path, encode the (path, content digest) tuples, and
hash the encoding (spec section 4.1, computeFileDigest).  The hash function
itself is a parameter: the underlying cryptographic primitive is outside
the model. -/
def moduleReadBucketDigestB5 (hash : List Nat → Nat) (m : ModuleD) : Digest :=
  ⟨"b5", hash (((m.files.insertionSort (fun a b => a.1 ≤ b.1)).map
    (fun f => f.1 ++ [f.2])).join)⟩

/-- Modelled from the spec: bufcas.NewDigestForDigests (not under src/) —
sort the digest byte values ascending, concatenate, and hash the
concatenation under the same algorithm tag (spec section 4.1,
combineDigests). -/
def NewDigestForDigests (hash : List Nat → Nat) (digests : List Digest) : Digest :=
  ⟨"b5", hash ((digests.map Digest.value).insertionSort (· ≤ ·))⟩

/-- Loop of ModuleDigestB5 collecting the dependency digests
(`for _, depModule := range depModules`). -/
def depDigests : List DepModule → Except Err (List Digest)
  | [] => .ok []
  | d :: ds =>
    match d.digest with
    | .error e => .error e
    | .ok dg =>
      match depDigests ds with
      | .error e => .error e
      | .ok dgs => .ok (dg :: dgs)

/-- ModuleDigestB5: the composite digest of the module's own file-manifest
digest followed by the digests of all its dependencies;
NewDigestForDigests deals with the sorting. -/
def ModuleDigestB5 (hash : List Nat → Nat) (module : ModuleD) : Except Err Digest :=
  match depDigests module.deps with
  | .error e => .error e
  | .ok digests =>
    .ok (NewDigestForDigests hash (moduleReadBucketDigestB5 hash module :: digests))

theorem depDigests_ok :
    ∀ (deps : List DepModule) (ds : List Digest),
      deps.map DepModule.digest = ds.map Except.ok →
      depDigests deps = .ok ds
  | [], ds, h => by
    have : ds = [] := by
      have hl := congrArg List.length h
      simp only [List.map_nil, List.length_nil, List.length_map] at hl
      exact List.length_eq_zero.mp hl.symm
    rw [this, depDigests]
  | d :: deps, ds, h => by
    rcases ds with _ | ⟨dg, dgs⟩
    · simp at h
    simp only [List.map_cons, List.cons.injEq] at h
    rcases h with ⟨hd, hrest⟩
    rw [depDigests, hd, depDigests_ok deps dgs hrest]

/-- C8: the composite ModuleDigestB5 is invariant under any permutation of
the module's dependency list, and does not depend on the module's name or on
any dependency's name — it is determined solely by the module's file
contents and the (successfully resolved) digests of its dependencies. -/
theorem ModuleDigestB5_perm_invariant
    (hash : List Nat → Nat) (m m' : ModuleD) (ds ds' : List Digest)
    (hfiles : m.files = m'.files)
    (hd : m.deps.map DepModule.digest = ds.map Except.ok)
    (hd' : m'.deps.map DepModule.digest = ds'.map Except.ok)
    (hperm : ds.Perm ds') :
    ModuleDigestB5 hash m = ModuleDigestB5 hash m' := by
  simp only [ModuleDigestB5, depDigests_ok m.deps ds hd, depDigests_ok m'.deps ds' hd']
  have hfd : moduleReadBucketDigestB5 hash m = moduleReadBucketDigestB5 hash m' := by
    rw [moduleReadBucketDigestB5, moduleReadBucketDigestB5, hfiles]
  rw [hfd]
  have hvals : ((moduleReadBucketDigestB5 hash m' :: ds).map Digest.value).Perm
      ((moduleReadBucketDigestB5 hash m' :: ds').map Digest.value) := by
    simp only [List.map_cons]
    exact (hperm.map Digest.value).cons _
  have hsorteq :
      (((moduleReadBucketDigestB5 hash m' :: ds).map Digest.value).insertionSort (· ≤ ·)) =
      (((moduleReadBucketDigestB5 hash m' :: ds').map Digest.value).insertionSort (· ≤ ·)) :=
    List.eq_of_perm_of_sorted
      ((List.perm_insertionSort _ _).trans (hvals.trans (List.perm_insertionSort _ _).symm))
      (List.sorted_insertionSort _ _) (List.sorted_insertionSort _ _)
  unfold NewDigestForDigests
  rw [hsorteq]

/-- Hash stand-in of the C8 witness. -/
def c8hash : List Nat → Nat :=
  fun l => l.foldl (fun a b => a * 1000 + b + 1) 7

/-- First C8 module: named, two named dependencies. -/
def c8mA : ModuleD :=
  ⟨some "buf.build/acme/a", [([1], 4)],
    [⟨some "dep-one", .ok ⟨"b5", 9⟩⟩, ⟨none, .ok ⟨"b5", 3⟩⟩]⟩

/-- Second C8 module: unnamed, same files, dependency digests permuted and
renamed. -/
def c8mB : ModuleD :=
  ⟨none, [([1], 4)],
    [⟨some "dep-other", .ok ⟨"b5", 3⟩⟩, ⟨some "dep-names", .ok ⟨"b5", 9⟩⟩]⟩

/-- Witness for C8 at a concrete input: same files, permuted dependency
digests, entirely different names — identical composite digests. -/
theorem ModuleDigestB5_perm_invariant_witness :
    ModuleDigestB5 c8hash c8mA = ModuleDigestB5 c8hash c8mB :=
  ModuleDigestB5_perm_invariant c8hash c8mA c8mB
    [⟨"b5", 9⟩, ⟨"b5", 3⟩] [⟨"b5", 3⟩, ⟨"b5", 9⟩]
    rfl rfl rfl (by decide)

end DigestAlg
